import Mathlib

/-!
Verification of the linksnap repository's origin-policy middleware,
client-side error-message extraction, and storage-client configuration.

The embedding follows the JavaScript/TypeScript sources:
  * the CORS middleware module (`escapeRegExp`, `toWildcardRegExp`,
    `parseAllowedOrigins`, `createCorsMiddleware`);
  * the front-end `extractErrorMessage` helper;
  * `backend/src/cloudinary.js` (`assertEnv`, `ensureConfigured`).

Conventions used throughout:
  * JavaScript strings are modelled as `String` or `List Char`; an
    absent value (`undefined`) is `Option.none`.
  * JavaScript truthiness on strings (`!s` is true for `undefined` and
    for the empty string) is modelled explicitly at each use site.
  * A JavaScript regular expression produced by `toWildcardRegExp` is
    modelled by the list of atoms (`Piece`) of the compiled pattern;
    `matchesPieces` is whole-string matching, which is exactly what the
    source's `^...$` anchors plus `RegExp.test` compute (in JavaScript,
    without the `m` flag, `^` matches only at the start of the input and
    `$` only at its end).  The JavaScript dot (`.`, produced by the
    rewrite of `\*` into `.*`) matches every character except the four
    line terminators; this is modelled by `isLineTerminator`.
-/

/-- The character class escaped by the source's `escapeRegExp`
(`/[.*+?^${}()|[\]\\]/g`). -/
def isRegExpSpecial (c : Char) : Bool :=
  c = '.' || c = '*' || c = '+' || c = '?' || c = '^' || c = '$' ||
  c = '\x7b' || c = '\x7d' || c = '(' || c = ')' || c = '|' ||
  c = '[' || c = ']' || c = '\\'

/-- Source `escapeRegExp`: every special character is replaced by a
backslash followed by itself (`"\\$&"`). -/
def escapeRegExp : List Char → List Char
  | [] => []
  | c :: cs =>
    if isRegExpSpecial c then '\\' :: c :: escapeRegExp cs
    else c :: escapeRegExp cs

/-- The global replacement `.replace(/\\\*/g, ".*")` performed by
`toWildcardRegExp`: a left-to-right scan replacing every non-overlapping
occurrence of the two characters `\*` with the two characters `.*`. -/
def replaceEscapedStar : List Char → List Char
  | [] => []
  | [c] => [c]
  | c1 :: c2 :: cs =>
    if c1 = '\\' ∧ c2 = '*' then '.' :: '*' :: replaceEscapedStar cs
    else c1 :: replaceEscapedStar (c2 :: cs)

/-- One atom of a compiled wildcard regular expression: a literal
character, the dot (any single non-line-terminator character), or `.*`
(any sequence of non-line-terminator characters). -/
inductive Piece where
  | lit (c : Char)
  | anyChar
  | anyStar
deriving DecidableEq, Repr

/-- Reading the regular-expression body produced by the source pipeline
back into its atoms: `\c` is the literal `c`, `.*` is the unbounded
wildcard, a lone `.` is the single-character wildcard, and every other
character is a literal. -/
def parseRegexPieces : List Char → List Piece
  | [] => []
  | [c] => if c = '.' then [Piece.anyChar] else [Piece.lit c]
  | c1 :: c2 :: cs =>
    if c1 = '\\' then Piece.lit c2 :: parseRegexPieces cs
    else if c1 = '.' ∧ c2 = '*' then Piece.anyStar :: parseRegexPieces cs
    else if c1 = '.' then Piece.anyChar :: parseRegexPieces (c2 :: cs)
    else Piece.lit c1 :: parseRegexPieces (c2 :: cs)

/-- Source `toWildcardRegExp`: escape the token, rewrite every escaped
star into `.*`, and read the result as an anchored pattern. -/
def toWildcardRegExp (pattern : List Char) : List Piece :=
  parseRegexPieces (replaceEscapedStar (escapeRegExp pattern))

/-- The four JavaScript line terminators, the characters NOT matched by
an unflagged dot in a JavaScript regular expression. -/
def isLineTerminator (c : Char) : Bool :=
  c = '\n' || c = '\r' || c = '\u2028' || c = '\u2029'

/-- Backtracking loop for `.*`: try to match the rest of the pattern
(given as the continuation `f`) after consuming zero or more
non-line-terminator characters. -/
def starLoop (f : List Char → Bool) : List Char → Bool
  | [] => f []
  | x :: xs => f (x :: xs) || (!isLineTerminator x && starLoop f xs)

/-- Whole-string matching of a compiled pattern, i.e. the source's
`new RegExp("^" + escaped + "$").test(origin)`. -/
def matchesPieces : List Piece → List Char → Bool
  | [], cs => cs.isEmpty
  | Piece.lit _ :: _, [] => false
  | Piece.lit c :: ps, x :: xs => c = x && matchesPieces ps xs
  | Piece.anyChar :: _, [] => false
  | Piece.anyChar :: ps, x :: xs => !isLineTerminator x && matchesPieces ps xs
  | Piece.anyStar :: ps, cs => starLoop (matchesPieces ps) cs

/-- The character set removed by JavaScript `String.prototype.trim`:
ECMAScript WhiteSpace (tab, vertical tab, form feed, space, no-break
space, zero-width no-break space and the Unicode space separators)
together with the four line terminators. -/
def isJsWhitespace (c : Char) : Bool :=
  c = ' ' || c = '\t' || c = '\n' || c = '\r' || c = '\u000B' ||
  c = '\u000C' || c = '\u00A0' || c = '\uFEFF' || c = '\u1680' ||
  (('\u2000' ≤ c) && (c ≤ '\u200A')) || c = '\u2028' || c = '\u2029' ||
  c = '\u202F' || c = '\u205F' || c = '\u3000'

/-- JavaScript `s.trim()` on a character list. -/
def trimChars (cs : List Char) : List Char :=
  ((cs.dropWhile isJsWhitespace).reverse.dropWhile isJsWhitespace).reverse

/-- JavaScript `s.split(sep)` for a single-character separator: the
empty string splits to one empty token, and every separator occurrence
opens a new token. -/
def jsSplit (sep : Char) : List Char → List (List Char)
  | [] => [[]]
  | c :: cs =>
    if c = sep then [] :: jsSplit sep cs
    else
      match jsSplit sep cs with
      | [] => [[c]]
      | t :: rest => (c :: t) :: rest

/-- The precomputed table built by `parseAllowedOrigins`: the exact-match
set and the compiled wildcard patterns.  The source's `Set` is modelled
as the list of inserted tokens (membership is all the source reads). -/
structure AllowedOrigins where
  exact : List (List Char)
  wildcards : List (List Piece)
deriving DecidableEq, Repr

/-- Source `parseAllowedOrigins`: split the configuration on commas,
trim each token, drop empty tokens (`filter(Boolean)`), then send tokens
containing `*` to the wildcard list and the rest to the exact set. -/
def parseAllowedOrigins (raw : String) : AllowedOrigins :=
  let tokens := ((jsSplit ',' raw.toList).map trimChars).filter (fun t => !t.isEmpty)
  { exact := tokens.filter (fun t => !t.contains '*')
    wildcards := (tokens.filter (fun t => t.contains '*')).map toWildcardRegExp }

/-- Source `isAllowed` inside `createCorsMiddleware`.  The guard
`if (!origin) return true` fires for an absent origin (`undefined`) and
also for the empty string, both falsy in JavaScript. -/
def isAllowed (allowed : AllowedOrigins) (origin : Option String) : Bool :=
  match origin with
  | none => true
  | some o =>
    if o = "" then true
    else allowed.exact.contains o.toList ||
      allowed.wildcards.any (fun re => matchesPieces re o.toList)

/-- The policy selected by `createCorsMiddleware` from the raw
`CORS_ORIGIN` environment value. -/
inductive CorsPolicy where
  | allowAll
  | restricted (allowed : AllowedOrigins)
deriving DecidableEq, Repr

/-- Source `createCorsMiddleware` configuration choice: an unset variable
(`undefined`), the empty string (both falsy, `!raw`) or the literal `"*"`
select the open `origin: "*"` middleware; anything else parses the
configuration into an `AllowedOrigins` table. -/
def createCorsMiddlewarePolicy (raw : Option String) : CorsPolicy :=
  match raw with
  | none => CorsPolicy.allowAll
  | some s =>
    if s = "" ∨ s = "*" then CorsPolicy.allowAll
    else CorsPolicy.restricted (parseAllowedOrigins s)

/-- The allow/deny verdict of the configured middleware for one request:
the open policy admits every request, the restricted policy applies
`isAllowed` to the request's `Origin` header value. -/
def corsDecision (raw : Option String) (origin : Option String) : Bool :=
  match createCorsMiddlewarePolicy raw with
  | CorsPolicy.allowAll => true
  | CorsPolicy.restricted allowed => isAllowed allowed origin

/-- Observable outcome of one call of the source's `origin(origin, cb)`
callback: the continuation was invoked with an error argument and a
verdict. -/
inductive CallbackResult where
  | called (err : Option String) (verdict : Bool)
deriving DecidableEq, Repr

/-- The origin callback of `createCorsMiddleware`, embedded in `Except`
so that a thrown JavaScript exception would be an `Except.error`.  The
source body is `return cb(null, isAllowed(origin))`: every operation on
the path (`Set.has`, `Array.some`, `RegExp.test`) is total and
non-throwing, so the embedding has no error branch. -/
def originCallback (allowed : AllowedOrigins) (origin : Option String) :
    Except String CallbackResult :=
  Except.ok (CallbackResult.called none (isAllowed allowed origin))

/-- A parsed JSON value, the result of `response.json()` on the client;
`null` also stands for the `null` fallback installed by
`response.json().catch(() => null)`. -/
inductive Json where
  | null
  | bool (b : Bool)
  | num (n : Int)
  | str (s : String)
  | arr (elems : List Json)
  | obj (fields : List (String × Json))

/-- Property lookup on the field list of a JSON object.  `JSON.parse`
yields objects with distinct keys, so first-match lookup is exact. -/
def lookupField : List (String × Json) → String → Option Json
  | [], _ => none
  | (k, v) :: rest, key => if k = key then some v else lookupField rest key

/-- JavaScript property access `value?.key`: a field of an object,
`undefined` (here `none`) on everything else, arrays included. -/
def getField (j : Json) (key : String) : Option Json :=
  match j with
  | Json.obj fields => lookupField fields key
  | _ => none

/-- The test `data && typeof data === "object"`: true exactly for
objects and arrays (JavaScript `null` is object-typed but falsy). -/
def isObjectLike : Json → Bool
  | Json.obj _ => true
  | Json.arr _ => true
  | _ => false

/-- The test `typeof x === "string"` on a possibly-absent value,
returning the string when it passes. -/
def asJsString : Option Json → Option String
  | some (Json.str s) => some s
  | _ => none

/-- Source `extractErrorMessage` from the front-end page: inside an
object-like body, try `data.error` as a string, then `data.error.message`
as a string, then `data.message` as a string; otherwise, and for any
non-object body, produce the generic French message
`Erreur upload (status)`. -/
def extractErrorMessage (data : Json) (status : Nat) : String :=
  if isObjectLike data then
    match asJsString (getField data "error") with
    | some s => s
    | none =>
      match asJsString ((getField data "error").bind (fun e => getField e "message")) with
      | some s => s
      | none =>
        match asJsString (getField data "message") with
        | some s => s
        | none => "Erreur upload (" ++ toString status ++ ")"
  else "Erreur upload (" ++ toString status ++ ")"

/-- A process environment: variable name to value, `none` when unset. -/
def Env : Type := String → Option String

/-- Source `assertEnv` of `backend/src/cloudinary.js`: throw
`Missing env var: name` when the variable is falsy (unset or the empty
string), otherwise return its value. -/
def assertEnv (env : Env) (name : String) : Except String String :=
  match env name with
  | none => Except.error ("Missing env var: " ++ name)
  | some v =>
    if v = "" then Except.error ("Missing env var: " ++ name)
    else Except.ok v

/-- The credential triple passed to `cloudinary.config`. -/
structure CloudinaryConfig where
  cloud_name : String
  api_key : String
  api_secret : String
deriving DecidableEq, Repr

/-- The module-level mutable state of `backend/src/cloudinary.js`: the
`configured` guard flag and the configuration installed so far. -/
structure CloudinaryState where
  configured : Bool
  config : Option CloudinaryConfig
deriving DecidableEq, Repr

/-- Source `ensureConfigured`: return immediately when the guard flag is
set; otherwise read the three credentials in object-literal order
(cloud name, key, secret) — a throw from `assertEnv` propagates before
any mutation, leaving the state exactly as it was — then install the
configuration and set the flag.  The returned pair is the state after
the call and the thrown error message, if any. -/
def ensureConfigured (env : Env) (st : CloudinaryState) :
    CloudinaryState × Option String :=
  if st.configured then (st, none)
  else
    match assertEnv env "CLOUDINARY_CLOUD_NAME" with
    | Except.error e => (st, some e)
    | Except.ok cn =>
      match assertEnv env "CLOUDINARY_API_KEY" with
      | Except.error e => (st, some e)
      | Except.ok k =>
        match assertEnv env "CLOUDINARY_API_SECRET" with
        | Except.error e => (st, some e)
        | Except.ok s =>
          ({ configured := true
             config := some { cloud_name := cn, api_key := k, api_secret := s } }, none)

/-!
Claim-side specification definitions.  Each follows the words of the
specification, for comparison with the definitions above, which follow
the source.
-/

/-- The single compiled atom the specification ascribes to one token
character: a `*` is the unbounded wildcard, everything else (regex
special characters included, since they are escaped) is a literal. -/
def charPiece (c : Char) : Piece :=
  if c = '*' then Piece.anyStar else Piece.lit c

/-- Parsing as worded by the specification: tokenize the configuration
on commas, trim, discard empty tokens; a token without `*` is an
exact-match origin, a token with `*` is compiled character by character
into literals and wildcards. -/
def specParseAllowedOrigins (raw : String) : AllowedOrigins :=
  let tokens := ((jsSplit ',' raw.toList).map trimChars).filter (fun t => !t.isEmpty)
  { exact := tokens.filter (fun t => !t.contains '*')
    wildcards := (tokens.filter (fun t => t.contains '*')).map (fun t => t.map charPiece) }

/-- Wildcard matching as worded by the claim: the whole token must match
the whole origin, literal characters match themselves, and each `*`
matches ANY character sequence (line terminators included). -/
def specMatchAny : List Char → List Char → Prop
  | [], cs => cs = []
  | t :: ts, cs =>
    if t = '*' then
      ∃ pre suf, cs = pre ++ suf ∧ specMatchAny ts suf
    else
      match cs with
      | [] => False
      | c :: cs' => t = c ∧ specMatchAny ts cs'

/-- Wildcard matching as the source actually behaves: like
`specMatchAny`, except that a `*` only matches sequences free of line
terminators (the JavaScript dot does not match them). -/
def specMatchNoLT : List Char → List Char → Prop
  | [], cs => cs = []
  | t :: ts, cs =>
    if t = '*' then
      ∃ pre suf, cs = pre ++ suf ∧ (∀ c ∈ pre, isLineTerminator c = false) ∧
        specMatchNoLT ts suf
    else
      match cs with
      | [] => False
      | c :: cs' => t = c ∧ specMatchNoLT ts cs'

/-- Error-message extraction as worded by the specification: in priority
order a top-level `error` string, a nested `error.message` string, a
top-level `message` string, else the generic message.  No object-guard
appears here: non-object bodies simply have no fields. -/
def specErrorMessage (data : Json) (status : Nat) : String :=
  match asJsString (getField data "error"),
        asJsString ((getField data "error").bind (fun e => getField e "message")),
        asJsString (getField data "message") with
  | some s, _, _ => s
  | none, some s, _ => s
  | none, none, some s => s
  | none, none, none => "Erreur upload (" ++ toString status ++ ")"

/-!
Helper lemmas: the escape/replace/parse pipeline of `toWildcardRegExp`
compiles a token character by character — a `*` becomes the unbounded
wildcard and every other character a literal — and the resulting matcher
agrees with the declarative matching relation `specMatchNoLT`.
-/

/-- The two-to-three characters a single token character contributes to
the regular-expression body after escaping and star-rewriting. -/
def escSeq (c : Char) : List Char :=
  if c = '*' then ['.', '*']
  else if isRegExpSpecial c then ['\\', c]
  else [c]

/-- The regular-expression body, token character by token character. -/
def regexBody : List Char → List Char
  | [] => []
  | c :: cs => escSeq c ++ regexBody cs

theorem escapeRegExp_head_ne_star (ts : List Char) :
    ∀ c cs, escapeRegExp ts = c :: cs → c ≠ '*' := by
  intro c cs h
  cases ts with
  | nil => simp [escapeRegExp] at h
  | cons t ts' =>
    by_cases hs : isRegExpSpecial t = true
    · simp [escapeRegExp, hs] at h
      intro hc
      rw [hc] at h
      exact absurd h.1.symm (by decide)
    · simp [escapeRegExp, hs] at h
      intro hc
      apply hs
      rw [h.1, hc]
      decide

theorem replaceEscapedStar_cons (c : Char) (ws : List Char)
    (h : c = '\\' → ws.head? ≠ some '*') :
    replaceEscapedStar (c :: ws) = c :: replaceEscapedStar ws := by
  cases ws with
  | nil => rfl
  | cons w ws' =>
    have hnot : ¬(c = '\\' ∧ w = '*') := by
      rintro ⟨hc, hw⟩
      exact h hc (by rw [hw]; rfl)
    simp [replaceEscapedStar, hnot]

theorem replace_escape (ts : List Char) :
    replaceEscapedStar (escapeRegExp ts) = regexBody ts := by
  induction ts with
  | nil => rfl
  | cons c cs ih =>
    by_cases hstar : c = '*'
    · subst hstar
      have : escapeRegExp ('*' :: cs) = '\\' :: '*' :: escapeRegExp cs := by
        simp [escapeRegExp, isRegExpSpecial]
      rw [this]
      simp [replaceEscapedStar, regexBody, escSeq, ih]
    · by_cases hs : isRegExpSpecial c = true
      · have h1 : escapeRegExp (c :: cs) = '\\' :: c :: escapeRegExp cs := by
          simp [escapeRegExp, hs]
        rw [h1]
        have h2 : replaceEscapedStar ('\\' :: c :: escapeRegExp cs) =
            '\\' :: replaceEscapedStar (c :: escapeRegExp cs) := by
          have : ¬(('\\' : Char) = '\\' ∧ c = '*') := by
            rintro ⟨_, hc⟩; exact hstar hc
          simp [replaceEscapedStar, this, hstar]
        rw [h2, replaceEscapedStar_cons c (escapeRegExp cs)]
        · simp [regexBody, escSeq, hstar, hs, ih]
        · intro _ habs
          cases hh : (escapeRegExp cs).head? with
          | none => rw [hh] at habs; exact Option.noConfusion habs
          | some w =>
            rw [hh] at habs
            cases ts' : escapeRegExp cs with
            | nil => rw [ts'] at hh; simp at hh
            | cons x xs =>
              rw [ts'] at hh
              simp at hh
              exact escapeRegExp_head_ne_star cs x xs ts'
                (by rw [hh]; exact Option.some.inj habs)
      · have h1 : escapeRegExp (c :: cs) = c :: escapeRegExp cs := by
          simp [escapeRegExp, hs]
        rw [h1, replaceEscapedStar_cons c (escapeRegExp cs)]
        · simp [regexBody, escSeq, hstar, hs, ih]
        · intro hc
          exact absurd (by rw [hc]; decide : isRegExpSpecial c = true) hs

theorem parseRegexPieces_cons (c : Char) (ws : List Char)
    (h1 : c ≠ '\\') (h2 : c ≠ '.') :
    parseRegexPieces (c :: ws) = Piece.lit c :: parseRegexPieces ws := by
  cases ws with
  | nil => simp [parseRegexPieces, h2]
  | cons w ws' => simp [parseRegexPieces, h1, h2]

theorem parse_body (ts : List Char) :
    parseRegexPieces (regexBody ts) = ts.map charPiece := by
  induction ts with
  | nil => rfl
  | cons c cs ih =>
    by_cases hstar : c = '*'
    · subst hstar
      have : regexBody ('*' :: cs) = '.' :: '*' :: regexBody cs := by
        simp [regexBody, escSeq]
      rw [this]
      simp [parseRegexPieces, charPiece, ih]
    · by_cases hs : isRegExpSpecial c = true
      · have h1 : regexBody (c :: cs) = '\\' :: c :: regexBody cs := by
          simp [regexBody, escSeq, hstar, hs]
        rw [h1]
        simp [parseRegexPieces, charPiece, hstar, ih]
      · have h1 : regexBody (c :: cs) = c :: regexBody cs := by
          simp [regexBody, escSeq, hstar, hs]
        have hb : c ≠ '\\' := by
          intro hc
          exact hs (by rw [hc]; decide)
        have hd : c ≠ '.' := by
          intro hc
          exact hs (by rw [hc]; decide)
        rw [h1, parseRegexPieces_cons c (regexBody cs) hb hd]
        simp [charPiece, hstar, ih]

/-- The whole compilation pipeline of the source is character-by-character
compilation: each `*` becomes the unbounded wildcard and every other
character a literal. -/
theorem toWildcardRegExp_eq_map (ts : List Char) :
    toWildcardRegExp ts = ts.map charPiece := by
  rw [toWildcardRegExp, replace_escape, parse_body]

/-- The compiled matcher agrees with the declarative wildcard relation in
which a `*` matches any sequence of non-line-terminator characters. -/
theorem matches_map_iff : (ts : List Char) → (cs : List Char) →
    (matchesPieces (ts.map charPiece) cs = true ↔ specMatchNoLT ts cs)
  | [], cs => by
    simp [matchesPieces, specMatchNoLT, List.isEmpty_iff]
  | t :: ts, cs => by
    by_cases hstar : t = '*'
    · subst hstar
      have hmap : ('*' :: ts).map charPiece = Piece.anyStar :: ts.map charPiece := by
        simp [charPiece]
      cases cs with
      | nil =>
        rw [hmap]
        have h1 : matchesPieces (Piece.anyStar :: ts.map charPiece) [] =
            matchesPieces (ts.map charPiece) [] := by
          simp [matchesPieces, starLoop]
        rw [h1]
        rw [matches_map_iff ts []]
        simp only [specMatchNoLT, if_pos rfl]
        constructor
        · intro h
          exact ⟨[], [], rfl, by simp, h⟩
        · rintro ⟨pre, suf, heq, _, hm⟩
          obtain ⟨hpre, hsuf⟩ := List.append_eq_nil.mp heq.symm
          rw [hsuf] at hm
          exact hm
      | cons c cs' =>
        rw [hmap]
        have h1 : matchesPieces (Piece.anyStar :: ts.map charPiece) (c :: cs') =
            (matchesPieces (ts.map charPiece) (c :: cs') ||
              (!isLineTerminator c &&
                matchesPieces (Piece.anyStar :: ts.map charPiece) cs')) := by
          simp [matchesPieces, starLoop]
        rw [h1]
        simp only [Bool.or_eq_true, Bool.and_eq_true, Bool.not_eq_true']
        rw [matches_map_iff ts (c :: cs')]
        rw [← hmap, matches_map_iff ('*' :: ts) cs']
        simp only [specMatchNoLT, if_pos rfl]
        constructor
        · rintro (h | ⟨hLT, hm⟩)
          · exact ⟨[], c :: cs', rfl, by simp, h⟩
          · obtain ⟨pre, suf, heq, hpre, hrest⟩ := hm
            refine ⟨c :: pre, suf, by rw [heq, List.cons_append], ?_, hrest⟩
            intro x hx
            rcases List.mem_cons.mp hx with hx | hx
            · rw [hx]; exact hLT
            · exact hpre x hx
        · rintro ⟨pre, suf, heq, hpre, hrest⟩
          cases pre with
          | nil =>
            left
            rw [List.nil_append] at heq
            rw [← heq] at hrest
            exact hrest
          | cons p pre' =>
            right
            rw [List.cons_append] at heq
            injection heq with hpc htail
            refine ⟨by rw [hpc]; exact hpre p (List.mem_cons_self p pre'), ?_⟩
            exact ⟨pre', suf, htail, fun x hx => hpre x (List.mem_cons_of_mem p hx), hrest⟩
    · have hmap : (t :: ts).map charPiece = Piece.lit t :: ts.map charPiece := by
        simp [charPiece, hstar]
      cases cs with
      | nil =>
        rw [hmap]
        simp [matchesPieces, specMatchNoLT, hstar]
      | cons c cs' =>
        rw [hmap]
        have h1 : matchesPieces (Piece.lit t :: ts.map charPiece) (c :: cs') =
            ((t = c : Bool) && matchesPieces (ts.map charPiece) cs') := by
          simp [matchesPieces]
        rw [h1]
        simp only [Bool.and_eq_true, decide_eq_true_eq]
        rw [matches_map_iff ts cs']
        simp [specMatchNoLT, hstar]
termination_by ts cs => ts.length + cs.length
decreasing_by all_goals (simp [List.length_cons]; try omega)

/-!
Claim theorems.
-/

/-- C5: for every parsed configuration and every origin input (absent
included), evaluating the origin-policy decision never raises: the
origin callback always invokes its continuation with a null error and a
boolean verdict, so the embedding in `Except` has no error outcome. -/
theorem originCallback_never_throws :
    ∀ (allowed : AllowedOrigins) (origin : Option String),
      ∃ verdict : Bool,
        originCallback allowed origin = Except.ok (CallbackResult.called none verdict) ∧
        verdict = isAllowed allowed origin :=
  fun allowed origin => ⟨isAllowed allowed origin, rfl, rfl⟩

/-- C2: an absent configuration value or the literal wildcard token `*`
selects the open policy, which allows every origin unconditionally. -/
theorem openPolicy_allows_every_origin :
    ∀ raw : Option String, (raw = none ∨ raw = some "*") →
      createCorsMiddlewarePolicy raw = CorsPolicy.allowAll ∧
      ∀ origin : Option String, corsDecision raw origin = true := by
  intro raw h
  rcases h with h | h <;> subst h
  · exact ⟨rfl, fun _ => rfl⟩
  · constructor
    · simp [createCorsMiddlewarePolicy]
    · intro origin
      simp [corsDecision, createCorsMiddlewarePolicy]

/-- Witness for C2 at the concrete inputs `none` and an arbitrary
origin string. -/
theorem openPolicy_allows_every_origin_witness :
    createCorsMiddlewarePolicy none = CorsPolicy.allowAll ∧
    corsDecision none (some "https://anywhere.example") = true :=
  ⟨(openPolicy_allows_every_origin none (Or.inl rfl)).1,
   (openPolicy_allows_every_origin none (Or.inl rfl)).2 (some "https://anywhere.example")⟩

/-- C4: for the configuration `https://a.com,https://*.b.com` the policy
allows `https://a.com` and `https://x.b.com` and denies
`https://a.com.evil.com` and `http://a.com`. -/
theorem sampleConfig_decisions :
    corsDecision (some "https://a.com,https://*.b.com") (some "https://a.com") = true ∧
    corsDecision (some "https://a.com,https://*.b.com") (some "https://x.b.com") = true ∧
    corsDecision (some "https://a.com,https://*.b.com") (some "https://a.com.evil.com") = false ∧
    corsDecision (some "https://a.com,https://*.b.com") (some "http://a.com") = false := by
  decide

/-- Counterexample to C6 as stated: on a null body with status 500 the
extractor returns the French generic message, not the English
`Upload failed (500)` the claim asserts. -/
theorem extractErrorMessage_generic_counterexample :
    extractErrorMessage Json.null 500 = "Erreur upload (500)" ∧
    extractErrorMessage Json.null 500 ≠ "Upload failed (500)" := by
  constructor
  · rfl
  · decide

/-- C6 (amended): the extractor returns, in priority order, a top-level
`error` string, a nested `error.message` string, a top-level `message`
string, and otherwise — a non-object or null body included — the generic
message `Erreur upload (status)`. -/
theorem extractErrorMessage_matches_priority_spec :
    ∀ (data : Json) (status : Nat),
      extractErrorMessage data status = specErrorMessage data status := by
  intro data status
  cases data with
  | obj fields =>
    cases h1 : asJsString (getField (Json.obj fields) "error") with
    | some s => simp [extractErrorMessage, specErrorMessage, isObjectLike, h1]
    | none =>
      cases h2 : asJsString ((getField (Json.obj fields) "error").bind
          (fun e => getField e "message")) with
      | some s => simp [extractErrorMessage, specErrorMessage, isObjectLike, h1, h2]
      | none =>
        cases h3 : asJsString (getField (Json.obj fields) "message") <;>
          simp [extractErrorMessage, specErrorMessage, isObjectLike, h1, h2, h3]
  | arr elems => simp [extractErrorMessage, specErrorMessage, isObjectLike, getField, asJsString]
  | null => simp [extractErrorMessage, specErrorMessage, isObjectLike, getField, asJsString]
  | bool b => simp [extractErrorMessage, specErrorMessage, isObjectLike, getField, asJsString]
  | num n => simp [extractErrorMessage, specErrorMessage, isObjectLike, getField, asJsString]
  | str s => simp [extractErrorMessage, specErrorMessage, isObjectLike, getField, asJsString]

/-- Counterexample to C1 as stated: under the non-open configuration
`https://a.com` an origin header carrying the empty string is allowed by
the code (JavaScript `!origin` is true on the empty string), although it
is neither absent, nor in the exact set, nor a wildcard match (there are
no wildcard patterns at all). -/
theorem emptyOrigin_allowed_counterexample :
    isAllowed (parseAllowedOrigins "https://a.com") (some "") = true ∧
    (parseAllowedOrigins "https://a.com").exact.contains "".toList = false ∧
    (parseAllowedOrigins "https://a.com").wildcards = [] := by
  decide

/-- C1 (amended): a request with no Origin header is always allowed, and
for every parsed non-open configuration the decision allows a request
exactly when the Origin header is absent OR EMPTY, or the origin is in
the exact-match set, or it fully matches some compiled wildcard pattern;
every other request is denied. -/
theorem corsDecision_iff_characterization :
    (∀ raw : Option String, corsDecision raw none = true) ∧
    ∀ (s : String) (allowed : AllowedOrigins) (origin : Option String),
      createCorsMiddlewarePolicy (some s) = CorsPolicy.restricted allowed →
      (isAllowed allowed origin = true ↔
        origin = none ∨ origin = some "" ∨
        ∃ o : String, origin = some o ∧
          (o.toList ∈ allowed.exact ∨
            ∃ p ∈ allowed.wildcards, matchesPieces p o.toList = true)) := by
  constructor
  · intro raw
    cases h : createCorsMiddlewarePolicy raw <;> simp [corsDecision, h, isAllowed]
  · intro s allowed origin _
    cases origin with
    | none => simp [isAllowed]
    | some o =>
      by_cases ho : o = ""
      · subst ho
        simp [isAllowed]
      · simp [isAllowed, ho, List.any_eq_true, List.elem_iff]

/-- Witness for C1 at the configuration `https://a.com` and the origin
`https://a.com` (an exact-set member, hence allowed). -/
theorem corsDecision_iff_characterization_witness :
    isAllowed (parseAllowedOrigins "https://a.com") (some "https://a.com") = true :=
  (corsDecision_iff_characterization.2 "https://a.com"
      (parseAllowedOrigins "https://a.com") (some "https://a.com") rfl).mpr
    (Or.inr (Or.inr ⟨"https://a.com", rfl, Or.inl (by decide)⟩))

/-- Counterexample to C3 as stated: the claim says a `*` matches any
character sequence, but the compiled pattern for the token `a*b` does
not match `a`, newline, `b` — the JavaScript dot excludes line
terminators — while the claimed semantics does match it. -/
theorem wildcard_newline_counterexample :
    matchesPieces (toWildcardRegExp ("a*b".toList)) ("a\nb".toList) = false ∧
    specMatchAny ("a*b".toList) ("a\nb".toList) := by
  constructor
  · decide
  · show specMatchAny ('a' :: '*' :: 'b' :: []) ('a' :: '\n' :: 'b' :: [])
    refine ⟨rfl, ⟨['\n'], ['b'], rfl, ⟨rfl, rfl⟩⟩⟩

/-- C3 (amended): parsing tokenizes on commas, trims, discards empty
tokens, sends star-free tokens to the exact set and star-carrying tokens
to the compiled pattern list (this is `specParseAllowedOrigins`, the
specification's wording); and a compiled pattern matches an origin
exactly when the whole token matches the whole origin with literals
matching themselves and each `*` matching any sequence of
NON-LINE-TERMINATOR characters (partial matches never count). -/
theorem parseAllowedOrigins_and_wildcard_semantics :
    (∀ raw : String, parseAllowedOrigins raw = specParseAllowedOrigins raw) ∧
    ∀ (token origin : List Char),
      (matchesPieces (toWildcardRegExp token) origin = true ↔
        specMatchNoLT token origin) := by
  constructor
  · intro raw
    unfold parseAllowedOrigins specParseAllowedOrigins
    rw [funext toWildcardRegExp_eq_map]
  · intro token origin
    rw [toWildcardRegExp_eq_map]
    exact matches_map_iff token origin

/-- Witness for C3: the compiled pattern of the token `a*` matches the
origin `ax`. -/
theorem parseAllowedOrigins_and_wildcard_semantics_witness :
    matchesPieces (toWildcardRegExp ("a*".toList)) ("ax".toList) = true :=
  (parseAllowedOrigins_and_wildcard_semantics.2 ("a*".toList) ("ax".toList)).mpr
    ⟨rfl, ⟨['x'], [], rfl, by decide, rfl⟩⟩

/-- Counterexample to C10 as stated: for the all-empty-token
configuration `,,` a request CARRYING an Origin header whose value is the
empty string is allowed, although the claim says every request carrying
an Origin header is denied.  The parsed table is indeed empty. -/
theorem allEmptyTokens_emptyOrigin_counterexample :
    corsDecision (some ",,") (some "") = true ∧
    (parseAllowedOrigins ",,").exact = [] ∧
    (parseAllowedOrigins ",,").wildcards = [] := by
  decide

/-- C10 (amended): a configuration that is non-empty, not `*`, and whose
comma-separated tokens are all empty after trimming does not fall back
to the open policy: it parses to an empty exact set and no wildcard
patterns, so every request carrying a NON-EMPTY Origin header is denied,
while a request without an Origin header is still allowed. -/
theorem allEmptyTokens_restrictive :
    ∀ raw : String, raw ≠ "" → raw ≠ "*" →
      ((jsSplit ',' raw.toList).map trimChars).all List.isEmpty = true →
      createCorsMiddlewarePolicy (some raw) =
        CorsPolicy.restricted (parseAllowedOrigins raw) ∧
      (parseAllowedOrigins raw).exact = [] ∧
      (parseAllowedOrigins raw).wildcards = [] ∧
      (∀ o : String, o ≠ "" → isAllowed (parseAllowedOrigins raw) (some o) = false) ∧
      isAllowed (parseAllowedOrigins raw) none = true := by
  intro raw h1 h2 hall
  have htok : ((jsSplit ',' raw.toList).map trimChars).filter (fun t => !t.isEmpty) = [] := by
    rw [List.filter_eq_nil_iff]
    intro t ht
    have := List.all_eq_true.mp hall t ht
    simp [this]
  have hexact : (parseAllowedOrigins raw).exact = [] := by
    have h : (parseAllowedOrigins raw).exact =
        (((jsSplit ',' raw.toList).map trimChars).filter
          (fun t => !t.isEmpty)).filter (fun t => !t.contains '*') := rfl
    rw [h, htok]
    rfl
  have hwild : (parseAllowedOrigins raw).wildcards = [] := by
    have h : (parseAllowedOrigins raw).wildcards =
        ((((jsSplit ',' raw.toList).map trimChars).filter
          (fun t => !t.isEmpty)).filter (fun t => t.contains '*')).map toWildcardRegExp := rfl
    rw [h, htok]
    rfl
  refine ⟨by simp [createCorsMiddlewarePolicy, h1, h2], hexact, hwild, ?_, by simp [isAllowed]⟩
  intro o ho
  simp [isAllowed, ho, hexact, hwild]

/-- Witness for C10 at the configuration consisting of one space on each
side of a comma: a real origin is denied, an absent origin is allowed. -/
theorem allEmptyTokens_restrictive_witness :
    isAllowed (parseAllowedOrigins " , ") (some "https://a.com") = false ∧
    isAllowed (parseAllowedOrigins " , ") none = true :=
  ⟨(allEmptyTokens_restrictive " , " (by decide) (by decide) (by decide)).2.2.2.1
      "https://a.com" (by decide),
   (allEmptyTokens_restrictive " , " (by decide) (by decide) (by decide)).2.2.2.2⟩

/-- C7: when the guard flag is not yet set and at least one of the three
credential variables is absent, the configuration routine throws an
error naming a falsy (missing) credential variable and leaves the state
unchanged — a fatal configuration error, no fallback. -/
theorem ensureConfigured_missing_env_fails :
    ∀ (env : Env) (st : CloudinaryState), st.configured = false →
      (env "CLOUDINARY_CLOUD_NAME" = none ∨ env "CLOUDINARY_API_KEY" = none ∨
        env "CLOUDINARY_API_SECRET" = none) →
      ∃ name : String,
        (name = "CLOUDINARY_CLOUD_NAME" ∨ name = "CLOUDINARY_API_KEY" ∨
          name = "CLOUDINARY_API_SECRET") ∧
        (env name = none ∨ env name = some "") ∧
        ensureConfigured env st = (st, some ("Missing env var: " ++ name)) := by
  intro env st hst hmiss
  cases hc : env "CLOUDINARY_CLOUD_NAME" with
  | none =>
    exact ⟨"CLOUDINARY_CLOUD_NAME", Or.inl rfl, Or.inl hc,
      by simp [ensureConfigured, hst, assertEnv, hc]⟩
  | some v =>
    by_cases hv : v = ""
    · subst hv
      exact ⟨"CLOUDINARY_CLOUD_NAME", Or.inl rfl, Or.inr hc,
        by simp [ensureConfigured, hst, assertEnv, hc]⟩
    · cases hk : env "CLOUDINARY_API_KEY" with
      | none =>
        exact ⟨"CLOUDINARY_API_KEY", Or.inr (Or.inl rfl), Or.inl hk,
          by simp [ensureConfigured, hst, assertEnv, hc, hv, hk]⟩
      | some w =>
        by_cases hw : w = ""
        · subst hw
          exact ⟨"CLOUDINARY_API_KEY", Or.inr (Or.inl rfl), Or.inr hk,
            by simp [ensureConfigured, hst, assertEnv, hc, hv, hk]⟩
        · have hs : env "CLOUDINARY_API_SECRET" = none := by
            rcases hmiss with h | h | h
            · rw [hc] at h; exact Option.noConfusion h
            · rw [hk] at h; exact Option.noConfusion h
            · exact h
          exact ⟨"CLOUDINARY_API_SECRET", Or.inr (Or.inr rfl), Or.inl hs,
            by simp [ensureConfigured, hst, assertEnv, hc, hv, hk, hw, hs]⟩

/-- Witness for C7 on the empty environment and unconfigured state. -/
theorem ensureConfigured_missing_env_fails_witness :
    ∃ name : String,
      (name = "CLOUDINARY_CLOUD_NAME" ∨ name = "CLOUDINARY_API_KEY" ∨
        name = "CLOUDINARY_API_SECRET") ∧
      ((fun _ : String => (none : Option String)) name = none ∨
        (fun _ : String => (none : Option String)) name = some "") ∧
      ensureConfigured (fun _ => none) ⟨false, none⟩ =
        (⟨false, none⟩, some ("Missing env var: " ++ name)) :=
  ensureConfigured_missing_env_fails (fun _ => none) ⟨false, none⟩ rfl (Or.inl rfl)

/-- C8: a successful configuration call sets the guard flag, and from
then on every further call — under ANY environment — is a no-op
returning the same state with no error, so calling the routine twice is
observationally calling it once. -/
theorem ensureConfigured_idempotent :
    ∀ (env : Env) (st st' : CloudinaryState),
      ensureConfigured env st = (st', none) →
      st'.configured = true ∧ ∀ env2 : Env, ensureConfigured env2 st' = (st', none) := by
  intro env st st' h
  have hconf : st'.configured = true := by
    cases hb : st.configured with
    | true =>
      simp [ensureConfigured, hb] at h
      rw [← h]
      exact hb
    | false =>
      cases hcn : assertEnv env "CLOUDINARY_CLOUD_NAME" with
      | error e1 => simp [ensureConfigured, hb, hcn] at h
      | ok cn =>
        cases hk : assertEnv env "CLOUDINARY_API_KEY" with
        | error e2 => simp [ensureConfigured, hb, hcn, hk] at h
        | ok k =>
          cases hs : assertEnv env "CLOUDINARY_API_SECRET" with
          | error e3 => simp [ensureConfigured, hb, hcn, hk, hs] at h
          | ok s =>
            simp [ensureConfigured, hb, hcn, hk, hs] at h
            rw [← h]
  exact ⟨hconf, fun env2 => by simp [ensureConfigured, hconf]⟩

/-- Witness for C8: configure once successfully from an unconfigured
state, then call again under an empty environment; the second call is a
no-op. -/
theorem ensureConfigured_idempotent_witness :
    ensureConfigured (fun _ => none) ⟨true, some ⟨"x", "x", "x"⟩⟩ =
      (⟨true, some ⟨"x", "x", "x"⟩⟩, none) :=
  (ensureConfigured_idempotent (fun _ => some "x") ⟨false, none⟩
      ⟨true, some ⟨"x", "x", "x"⟩⟩ (by decide)).2 (fun _ => none)

/-- C9: configuration is atomic on failure: a throwing call leaves the
state untouched (the guard flag stays false), and a later call under an
environment providing all three non-empty credentials performs the
configuration instead of short-circuiting. -/
theorem ensureConfigured_atomic_on_failure :
    ∀ (env : Env) (st st2 : CloudinaryState) (e : String),
      ensureConfigured env st = (st2, some e) →
      st2 = st ∧ st2.configured = false ∧
      ∀ (env2 : Env) (cn k s : String),
        env2 "CLOUDINARY_CLOUD_NAME" = some cn → cn ≠ "" →
        env2 "CLOUDINARY_API_KEY" = some k → k ≠ "" →
        env2 "CLOUDINARY_API_SECRET" = some s → s ≠ "" →
        ensureConfigured env2 st2 =
          ({ configured := true
             config := some { cloud_name := cn, api_key := k, api_secret := s } }, none) := by
  intro env st st2 e h
  cases hb : st.configured with
  | true => simp [ensureConfigured, hb] at h
  | false =>
    have hst2 : st2 = st := by
      cases hcn : assertEnv env "CLOUDINARY_CLOUD_NAME" with
      | error e1 => simp [ensureConfigured, hb, hcn] at h; exact h.1.symm
      | ok cn =>
        cases hk : assertEnv env "CLOUDINARY_API_KEY" with
        | error e2 => simp [ensureConfigured, hb, hcn, hk] at h; exact h.1.symm
        | ok k =>
          cases hs : assertEnv env "CLOUDINARY_API_SECRET" with
          | error e3 => simp [ensureConfigured, hb, hcn, hk, hs] at h; exact h.1.symm
          | ok s => simp [ensureConfigured, hb, hcn, hk, hs] at h
    have hconf2 : st2.configured = false := by rw [hst2, hb]
    refine ⟨hst2, hconf2, ?_⟩
    intro env2 cn k s h1 h2 h3 h4 h5 h6
    simp [ensureConfigured, hconf2, assertEnv, h1, h2, h3, h4, h5, h6]

/-- Witness for C9: fail on the empty environment from the unconfigured
state, then configure successfully under an environment mapping each
variable name to itself. -/
theorem ensureConfigured_atomic_on_failure_witness :
    ensureConfigured (fun n => some n) ⟨false, none⟩ =
      ({ configured := true
         config := some { cloud_name := "CLOUDINARY_CLOUD_NAME"
                          api_key := "CLOUDINARY_API_KEY"
                          api_secret := "CLOUDINARY_API_SECRET" } }, none) :=
  (ensureConfigured_atomic_on_failure (fun _ => none) ⟨false, none⟩ ⟨false, none⟩
      ("Missing env var: " ++ "CLOUDINARY_CLOUD_NAME") (by decide)).2.2
    (fun n => some n) "CLOUDINARY_CLOUD_NAME" "CLOUDINARY_API_KEY" "CLOUDINARY_API_SECRET"
    rfl (by decide) rfl (by decide) rfl (by decide)
